import Mathlib

/-!
Shallow embedding of `streamlit_app.py` (the 30-days-of-AI lesson browser).

The program has three pure cores, each embedded below from the source:

* catalog building (glob over the app directory + regex search for the day
  pattern
  + sort of `(int, path)` pairs + projection to the numbers),
* navigation-state reconciliation (URL query parameter, session state,
  catalog membership checks),
* lesson-content loading (`splitlines`, `lstrip("# ")`, `"\n".join(lines[3:])`,
  `split("---", 1)`, `strip()`).

Python string primitives (`splitlines`, `lstrip`, `strip`, `split(sep, 1)`,
`int(...)`) are modelled over `List Char`.  Character classes (digits,
whitespace) are modelled as their ASCII parts; Python additionally accepts
some non-ASCII digits and whitespace, which no claim depends on.
-/

set_option maxRecDepth 8000

namespace ThirtyDays

/-- ASCII part of the Python string whitespace class (`str.strip`, `int` parsing). -/
def isPySpace (c : Char) : Bool :=
  c == ' ' || c == '\t' || c == '\n' || c == '\r' || c == '\x0b' || c == '\x0c'

/-- Characters that `str.splitlines` treats as line boundaries. -/
def isLineBreak (c : Char) : Bool :=
  c == '\n' || c == '\r' || c == '\x0b' || c == '\x0c' ||
  c == '\x1c' || c == '\x1d' || c == '\x1e' ||
  c.val == 0x85 || c.val == 0x2028 || c.val == 0x2029

/-- Python `str.splitlines` over characters; `acc` is the reversed current
line and `afterCR` records that the previous character was a `'\r'` boundary,
so that a following `'\n'` belongs to the same `"\r\n"` boundary. -/
def splitlinesGo : List Char → List Char → Bool → List (List Char)
  | [], acc, _ => if acc.isEmpty then [] else [acc.reverse]
  | c :: rest, acc, afterCR =>
    if afterCR && c == '\n' then splitlinesGo rest acc false
    else if isLineBreak c then acc.reverse :: splitlinesGo rest [] (c == '\r')
    else splitlinesGo rest (c :: acc) false

/-- The lines of a file body, as in `read_text().splitlines()`. -/
def linesL (s : String) : List (List Char) :=
  splitlinesGo s.data [] false

/-- Python `"\n".join(parts)`. -/
def joinNL : List (List Char) → List Char
  | [] => []
  | [x] => x
  | x :: y :: ls => x ++ '\n' :: joinNL (y :: ls)

/-- Python `str.lstrip("# ")`: drop every leading `'#'` and `' '`. -/
def lstripHashSpace (cs : List Char) : List Char :=
  cs.dropWhile (fun c => c == '#' || c == ' ')

/-- Line 156 of the source:
`subtitle = lines[1].lstrip("# ") if len(lines) > 1 else ""`. -/
def subtitle (s : String) : String :=
  if 1 < (linesL s).length then String.mk (lstripHashSpace ((linesL s).getD 1 [])) else ""

/-- Line 157 of the source: `code_to_display = "\n".join(lines[3:])`. -/
def code_to_display (s : String) : String :=
  String.mk (joinNL ((linesL s).drop 3))

/-- A list of characters free of `splitlines` line boundaries. -/
def noBreaks (cs : List Char) : Bool :=
  cs.all (fun c => !isLineBreak c)

/-- The only line boundaries occurring are plain `'\n'`. -/
def onlyNL (cs : List Char) : Bool :=
  cs.all (fun c => !isLineBreak c || c == '\n')

/-- Only `'\n'` boundaries and the text does not end in one, so that splitting
into lines and re-joining with `'\n'` is lossless. -/
def nlNormalized (cs : List Char) : Bool :=
  onlyNL cs && !(cs.getLast? == some '\n')

theorem splitlinesGo_nil (acc : List Char) (b : Bool) :
    splitlinesGo [] acc b = if acc.isEmpty then [] else [acc.reverse] :=
  rfl

theorem splitlinesGo_cons_nl (rest acc : List Char) :
    splitlinesGo ('\n' :: rest) acc false = acc.reverse :: splitlinesGo rest [] false := by
  simp [splitlinesGo, isLineBreak]

theorem beq_nl_eq_false_of_not_break {c : Char} (h : isLineBreak c = false) :
    (c == '\n') = false := by
  rcases Bool.eq_false_or_eq_true (c == '\n') with hx | hx
  · have hc : c = '\n' := by simpa using hx
    subst hc
    exact absurd h (by decide)
  · exact hx

theorem splitlinesGo_cons_flat (c : Char) (rest acc : List Char) (b : Bool)
    (h : isLineBreak c = false) :
    splitlinesGo (c :: rest) acc b = splitlinesGo rest (c :: acc) false := by
  simp [splitlinesGo, beq_nl_eq_false_of_not_break h, h]

theorem onlyNL_cons_break {c : Char} {cs : List Char}
    (h : onlyNL (c :: cs) = true) (hb : isLineBreak c = true) : c = '\n' := by
  unfold onlyNL at h
  rw [List.all_cons, Bool.and_eq_true] at h
  rcases h with ⟨h1, _⟩
  rw [hb] at h1
  simpa using h1

theorem onlyNL_tail {c : Char} {cs : List Char}
    (h : onlyNL (c :: cs) = true) : onlyNL cs = true := by
  unfold onlyNL at h ⊢
  rw [List.all_cons, Bool.and_eq_true] at h
  exact h.2

theorem nlNormalized_onlyNL {cs : List Char}
    (h : nlNormalized cs = true) : onlyNL cs = true := by
  unfold nlNormalized at h
  rw [Bool.and_eq_true] at h
  exact h.1

theorem nlNormalized_tail {c : Char} {cs : List Char}
    (h : nlNormalized (c :: cs) = true) (hne : cs ≠ []) : nlNormalized cs = true := by
  unfold nlNormalized at h ⊢
  rw [Bool.and_eq_true] at h
  rcases h with ⟨h1, h3⟩
  rw [Bool.and_eq_true]
  refine ⟨onlyNL_tail h1, ?_⟩
  obtain ⟨d, ds, rfl⟩ := List.exists_cons_of_ne_nil hne
  rwa [List.getLast?_cons_cons] at h3

theorem splitlinesGo_ne_nil (cs : List Char) :
    ∀ acc : List Char, onlyNL cs = true → cs ≠ [] ∨ acc ≠ [] →
      splitlinesGo cs acc false ≠ [] := by
  induction cs with
  | nil =>
    intro acc _ h
    rcases h with h | h
    · exact absurd rfl h
    · simp [splitlinesGo_nil, h]
  | cons c rest ih =>
    intro acc hnl _
    by_cases hb : isLineBreak c = true
    · have hc : c = '\n' := onlyNL_cons_break hnl hb
      subst hc
      rw [splitlinesGo_cons_nl]
      exact List.cons_ne_nil _ _
    · rw [splitlinesGo_cons_flat c rest acc false (Bool.not_eq_true _ ▸ hb)]
      exact ih (c :: acc) (onlyNL_tail hnl) (Or.inr (List.cons_ne_nil _ _))

theorem joinNL_cons_cons (x y : List Char) (ls : List (List Char)) :
    joinNL (x :: y :: ls) = x ++ '\n' :: joinNL (y :: ls) := by
  simp [joinNL]

/-- Re-joining the split lines of newline-normalized text restores the text. -/
theorem joinNL_splitlinesGo (cs : List Char) (h : nlNormalized cs = true) :
    ∀ acc : List Char, joinNL (splitlinesGo cs acc false) = acc.reverse ++ cs := by
  induction cs with
  | nil =>
    intro acc
    rw [splitlinesGo_nil]
    by_cases ha : acc.isEmpty
    · rw [if_pos ha]
      simp [List.isEmpty_iff.mp ha, joinNL]
    · rw [if_neg ha]
      simp [joinNL]
  | cons c rest ih =>
    intro acc
    by_cases hb : isLineBreak c = true
    · have hc : c = '\n' := onlyNL_cons_break (nlNormalized_onlyNL h) hb
      subst hc
      have hrest : rest ≠ [] := by
        intro hr
        subst hr
        unfold nlNormalized at h
        simp at h
      rw [splitlinesGo_cons_nl]
      obtain ⟨y, ls, hys⟩ := List.exists_cons_of_ne_nil
        (splitlinesGo_ne_nil rest [] (onlyNL_tail (nlNormalized_onlyNL h)) (Or.inl hrest))
      rw [hys, joinNL_cons_cons, ← hys]
      rw [ih (nlNormalized_tail h hrest) []]
      simp
    · have hb' : isLineBreak c = false := Bool.not_eq_true _ ▸ hb
      rw [splitlinesGo_cons_flat c rest acc false hb']
      by_cases hrest : rest = []
      · subst hrest
        rw [splitlinesGo_nil]
        simp [joinNL]
      · have hnorm : nlNormalized rest = true := nlNormalized_tail h hrest
        rw [ih hnorm (c :: acc)]
        simp

/-- Splitting off one break-free line: `splitlines (l ++ "\n" ++ rest)`
starts with `l`. -/
theorem splitlinesGo_line (l : List Char) (h : noBreaks l = true) :
    ∀ (rest acc : List Char),
      splitlinesGo (l ++ '\n' :: rest) acc false =
        (acc.reverse ++ l) :: splitlinesGo rest [] false := by
  induction l with
  | nil =>
    intro rest acc
    rw [List.nil_append, splitlinesGo_cons_nl]
    simp
  | cons c l ih =>
    intro rest acc
    unfold noBreaks at h
    rw [List.all_cons, Bool.and_eq_true] at h
    rcases h with ⟨h1, h2⟩
    have h1' : isLineBreak c = false := by simpa using h1
    rw [List.cons_append, splitlinesGo_cons_flat c _ acc false h1', ih h2 rest (c :: acc)]
    simp

/-- Python `str.strip()`: remove leading and trailing whitespace. -/
def pyStripL (cs : List Char) : List Char :=
  (((cs.dropWhile isPySpace).reverse).dropWhile isPySpace).reverse

/-- Python `s.split(sep, 1)`: split at the leftmost occurrence of `sep`,
`none` when `sep` does not occur. -/
def splitFirst (sep : List Char) : List Char → Option (List Char × List Char)
  | [] => if sep.isEmpty then some ([], []) else none
  | c :: rest =>
    if sep.isPrefixOf (c :: rest) then some ([], List.drop sep.length (c :: rest))
    else (splitFirst sep rest).map (fun p => (c :: p.1, p.2))

/-- Number of positions of `cs` at which `sep` occurs as a substring. -/
def countSub (sep : List Char) : List Char → Nat
  | [] => if sep.isPrefixOf [] then 1 else 0
  | c :: rest => (if sep.isPrefixOf (c :: rest) then 1 else 0) + countSub sep rest

/-- The delimiter of line 166 of the source: `split("---", 1)`. -/
def sepHR : List Char := ['-', '-', '-']

/-- Lines 166-167 of the source: `intro_content = parts[0].strip()` where
`parts = full_explanation_content.split("---", 1)`. -/
def introContent (m : String) : String :=
  match splitFirst sepHR m.data with
  | some p => String.mk (pyStripL p.1)
  | none => String.mk (pyStripL m.data)

/-- Lines 168-169 of the source: `expander_content = parts[1].strip()` when the
delimiter was found, the empty string otherwise. -/
def expanderContent (m : String) : String :=
  match splitFirst sepHR m.data with
  | some p => String.mk (pyStripL p.2)
  | none => ""

theorem splitFirst_eq_none_iff (sep : List Char) (hsep : sep ≠ []) :
    ∀ cs : List Char, splitFirst sep cs = none ↔ countSub sep cs = 0 := by
  intro cs
  induction cs with
  | nil =>
    have : sep.isPrefixOf [] = false := by
      cases sep with
      | nil => exact absurd rfl hsep
      | cons s ss => simp [List.isPrefixOf]
    simp [splitFirst, countSub, this, List.isEmpty_iff, hsep]
  | cons c rest ih =>
    by_cases hp : sep.isPrefixOf (c :: rest) = true
    · simp [splitFirst, countSub, hp]
    · have hp' : sep.isPrefixOf (c :: rest) = false := Bool.not_eq_true _ ▸ hp
      simp [splitFirst, countSub, hp', ih]

theorem pyStripL_eq_nil_iff (cs : List Char) :
    pyStripL cs = [] ↔ cs.all isPySpace = true := by
  constructor
  · intro h
    unfold pyStripL at h
    rw [List.reverse_eq_nil_iff, List.dropWhile_eq_nil_iff] at h
    have hdrop : ∀ x ∈ cs.dropWhile isPySpace, isPySpace x = true := by
      intro x hx
      exact h x (by simpa using hx)
    rw [List.all_eq_true]
    intro x hx
    rw [← List.takeWhile_append_dropWhile (p := isPySpace) (l := cs), List.mem_append] at hx
    rcases hx with hx | hx
    · exact List.mem_takeWhile_imp hx
    · exact hdrop x hx
  · intro h
    unfold pyStripL
    have h1 : cs.dropWhile isPySpace = [] := by
      rw [List.dropWhile_eq_nil_iff]
      intro x hx
      exact List.all_eq_true.mp h x hx
    simp [h1]

/-- The stripped string is empty iff the original is all whitespace. -/
theorem mk_pyStripL_eq_empty_iff (cs : List Char) :
    String.mk (pyStripL cs) = "" ↔ cs.all isPySpace = true := by
  rw [← pyStripL_eq_nil_iff]
  constructor
  · intro h
    have : (String.mk (pyStripL cs)).data = ("" : String).data := by rw [h]
    simpa using this
  · intro h
    rw [h]

/-- Value of a list of ASCII digit characters read in base 10. -/
def digitsVal (cs : List Char) : Nat :=
  cs.foldl (fun a c => 10 * a + (c.toNat - 48)) 0

/-- Validity of the digit part for Python `int(...)`: nonempty, only digits and
underscores, first and last are digits, and no two adjacent underscores. -/
def validDigits (cs : List Char) : Bool :=
  !cs.isEmpty &&
  cs.all (fun c => c.isDigit || c == '_') &&
  (match cs.head? with | some c => c.isDigit | none => false) &&
  (match cs.getLast? with | some c => c.isDigit | none => false) &&
  (cs.zip cs.tail).all (fun p => !(p.1 == '_' && p.2 == '_'))

/-- Digit run with optional underscore separators, as `int` accepts. -/
def parseDigitsU (cs : List Char) : Option Nat :=
  if validDigits cs then some (digitsVal (cs.filter (fun c => !(c == '_')))) else none

/-- Python `int(s)` for a string argument (line 44 of the source): strip
whitespace, optional sign, decimal digits; `none` models `ValueError`. -/
def pyIntParse (s : String) : Option Int :=
  match pyStripL s.data with
  | '+' :: rest => (parseDigitsU rest).map (fun n => (n : Int))
  | '-' :: rest => (parseDigitsU rest).map (fun n => -(n : Int))
  | cs => (parseDigitsU cs).map (fun n => (n : Int))

/-- Lines 39-52 of the source: the candidate selection before session state is
consulted.  Default is the first catalog entry (`None` for an empty catalog);
a URL parameter that parses and is a member of the catalog overrides it;
a missing, unparsable or non-member parameter is ignored. -/
def initial_day_num (day_options : List Nat) (qpDay : Option String) : Option Nat :=
  match qpDay, day_options with
  | some s, _ :: _ =>
    (match pyIntParse s with
     | some v =>
       if v ∈ day_options.map Int.ofNat then some v.toNat
       else day_options.head?
     | none => day_options.head?)
  | _, _ => day_options.head?

/-- Lines 54-61 of the source: `stored` is `none` when `"day_selection"` is not
yet in `st.session_state`, and `some s` when it is (the stored value `s` itself
being an optional day).  A stored value that is not in `day_options` is
replaced by the candidate only when `day_options` is non-empty. -/
def reconcile (day_options : List Nat) (qpDay : Option String)
    (stored : Option (Option Nat)) : Option Nat :=
  match stored with
  | none => initial_day_num day_options qpDay
  | some s =>
    if s ∉ day_options.map some ∧ day_options ≠ [] then
      initial_day_num day_options qpDay
    else s

/-- The filter implied by the glob pattern `day*.py` on a file name:
the name is `"day"`, then anything, then `".py"`. -/
def globMatch (name : String) : Bool :=
  (['d', 'a', 'y'].isPrefixOf name.data) && (['.', 'p', 'y'].isSuffixOf name.data)

/-- One attempt of the regex search for `day(\d+)\.py` at the current position:
literal `day`, a maximal nonempty digit run, then literal `.py`. -/
def matchDayAt (cs : List Char) : Option Nat :=
  match cs with
  | 'd' :: 'a' :: 'y' :: rest =>
    (let ds := rest.takeWhile Char.isDigit
     if ds.isEmpty then none
     else if ['.', 'p', 'y'].isPrefixOf (rest.dropWhile Char.isDigit) then
       some (digitsVal ds)
     else none)
  | _ => none

/-- The regex search tries every position left to right. -/
def searchDayAux : List Char → Option Nat
  | [] => none
  | c :: rest =>
    match matchDayAt (c :: rest) with
    | some n => some n
    | none => searchDayAux rest

/-- Line 22 of the source: the regex search for `day(\d+)\.py` in `path.name`, with the
captured digits converted by `int`. -/
def extractDay (name : String) : Option Nat :=
  searchDayAux name.data

/-- Lines 20-24 of the source: the `(int(match.group(1)), path)` pairs, one per
glob hit whose name contains the searched pattern. -/
def dayMatches (names : List String) : List (Nat × String) :=
  (names.filter globMatch).filterMap (fun nm => (extractDay nm).map (fun v => (v, nm)))

/-- Python string comparison (code-point lexicographic), as tuple sort uses for
the path component. -/
def charListLe : List Char → List Char → Bool
  | [], _ => true
  | _ :: _, [] => false
  | a :: as, b :: bs =>
    if a.toNat < b.toNat then true
    else if b.toNat < a.toNat then false
    else charListLe as bs

/-- Python tuple order on the `(number, path)` pairs of line 27. -/
def pairLe (a b : Nat × String) : Prop :=
  a.1 < b.1 ∨ (a.1 = b.1 ∧ charListLe a.2.data b.2.data = true)

instance : DecidableRel pairLe := fun a b => by
  unfold pairLe
  infer_instance

/-- Lines 27-30 of the source: sort the pairs, keep the numbers. -/
def day_options (names : List String) : List Nat :=
  (List.insertionSort pairLe (dayMatches names)).map Prod.fst

/-- Ascending sort of a list of numbers (for stating what `day_options` is). -/
def sortNat (l : List Nat) : List Nat :=
  List.insertionSort (· ≤ ·) l

/-- Follows the spec's words for the catalog builder: a filename contributes
its integer exactly when the whole name matches literal prefix `day`, one or
more digits, literal suffix `.py`. -/
def matchFullDay (cs : List Char) : Option Nat :=
  match cs with
  | 'd' :: 'a' :: 'y' :: rest =>
    (let ds := rest.takeWhile Char.isDigit
     if ds.isEmpty then none
     else if rest.dropWhile Char.isDigit = ['.', 'p', 'y'] then some (digitsVal ds)
     else none)
  | _ => none

/-- The catalog as the spec describes it: sorted integers of the exactly
matching filenames. -/
def catalogSpecPattern (names : List String) : List Nat :=
  sortNat (names.filterMap (fun nm => matchFullDay nm.data))

/-- C1 (counterexample): with an empty catalog but a previously stored
selection of day 5, the reconciler keeps `5`; the resulting SelectionState is
not absent, contradicting the claim that an empty catalog always yields
`None` regardless of the stored selection. -/
theorem reconciler_empty_catalog_counterexample :
    reconcile [] (some "1") (some (some 5)) = some 5 ∧
    reconcile [] (some "1") (some (some 5)) ≠ none := by
  decide

/-- C1 (amended): with an empty catalog the reconciler yields the previously
stored selection unchanged when one exists (even a stored `None`), and yields
an absent selection regardless of the URL parameter only when no selection was
previously stored. -/
theorem reconciler_empty_catalog (qp : Option String) (stored : Option (Option Nat)) :
    reconcile [] qp stored = stored.join := by
  cases stored with
  | none => cases qp <;> rfl
  | some s => simp [reconcile]

/-- C4: on a fresh session (no stored selection), a URL parameter that parses
to a catalog member makes the reconciler select exactly that member. -/
theorem reconciler_url_override (opts : List Nat) (qs : String) (n : Nat)
    (h₀ : opts ≠ []) (h₁ : pyIntParse qs = some (Int.ofNat n)) (h₂ : n ∈ opts) :
    reconcile opts (some qs) none = some n := by
  obtain ⟨a, as, rfl⟩ := List.exists_cons_of_ne_nil h₀
  have hm : (Int.ofNat n) ∈ (a :: as).map Int.ofNat :=
    List.mem_map.mpr ⟨n, h₂, rfl⟩
  show initial_day_num (a :: as) (some qs) = some n
  simp only [initial_day_num, h₁]
  rw [if_pos hm]
  rfl

/-- C4 witness at catalog `[1, 2]`, URL `"2"`. -/
theorem reconciler_url_override_witness :
    reconcile [1, 2] (some "2") none = some 2 :=
  reconciler_url_override [1, 2] "2" 2 (by decide) (by decide) (by decide)

/-- C7: on a fresh session with a non-empty catalog, a URL parameter that is
absent, unparsable (non-numeric or empty), or parsed but not a catalog member
is treated like an absent parameter and the reconciler falls back to the
first catalog member. -/
theorem reconciler_url_fallback (opts : List Nat) (qp : Option String)
    (h₀ : opts ≠ [])
    (h₁ : qp = none ∨ (∃ s, qp = some s ∧ pyIntParse s = none) ∨
          (∃ s v, qp = some s ∧ pyIntParse s = some v ∧
            v ∉ opts.map Int.ofNat)) :
    reconcile opts qp none = opts.head? ∧
    reconcile opts qp none = reconcile opts none none := by
  obtain ⟨a, as, rfl⟩ := List.exists_cons_of_ne_nil h₀
  rcases h₁ with rfl | ⟨s, rfl, hs⟩ | ⟨s, v, rfl, hs, hv⟩
  · exact ⟨rfl, rfl⟩
  · have key : initial_day_num (a :: as) (some s) = (a :: as).head? := by
      simp only [initial_day_num, hs]
    exact ⟨key, key⟩
  · have key : initial_day_num (a :: as) (some s) = (a :: as).head? := by
      simp only [initial_day_num, hs]
      exact if_neg hv
    exact ⟨key, key⟩

/-- C7 witness at catalog `[3, 9]`, non-numeric URL parameter `"abc"`. -/
theorem reconciler_url_fallback_witness :
    reconcile [3, 9] (some "abc") none = ([3, 9] : List Nat).head? ∧
    reconcile [3, 9] (some "abc") none = reconcile [3, 9] none none :=
  reconciler_url_fallback [3, 9] (some "abc") (by decide)
    (Or.inr (Or.inl ⟨"abc", rfl, by decide⟩))

/-- C8 (counterexample): with an empty catalog, a stored selection of day 5 is
not a member of the catalog, yet the reconciler keeps it instead of replacing
it by the candidate (which would be `None`), contradicting the claimed
unconditional replacement. -/
theorem stored_selection_counterexample :
    reconcile [] none (some (some 5)) = some 5 ∧
    initial_day_num [] none = none ∧
    reconcile [] none (some (some 5)) ≠ initial_day_num [] none := by
  decide

/-- C8 (amended): a stored selection that is a catalog member is kept
unchanged (the URL parameter is ignored); one that is not a member is replaced
by the candidate computed from the catalog default and URL parameter provided
the catalog is non-empty; with an empty catalog the stored value is kept. -/
theorem stored_selection_revalidation (opts₁ opts₂ : List Nat)
    (qp₁ qp₂ qp₃ : Option String) (v₁ v₂ v₃ : Nat)
    (h₁ : v₁ ∈ opts₁) (h₂ : v₂ ∉ opts₂) (h₃ : opts₂ ≠ []) :
    reconcile opts₁ qp₁ (some (some v₁)) = some v₁ ∧
    reconcile opts₂ qp₂ (some (some v₂)) = initial_day_num opts₂ qp₂ ∧
    reconcile [] qp₃ (some (some v₃)) = some v₃ := by
  refine ⟨?_, ?_, by simp [reconcile]⟩
  · have hm : some v₁ ∈ opts₁.map some := List.mem_map_of_mem _ h₁
    simp [reconcile, hm]
  · have hm : some v₂ ∉ opts₂.map some := by
      rw [List.mem_map_of_injective (Option.some_injective _)]
      exact h₂
    simp [reconcile, hm, h₃]

/-- C8 witness: member kept, non-member replaced, empty catalog keeps. -/
theorem stored_selection_revalidation_witness :
    reconcile [1, 2] (some "1") (some (some 2)) = some 2 ∧
    reconcile [4] none (some (some 7)) = initial_day_num [4] none ∧
    reconcile [] (some "8") (some (some 5)) = some 5 :=
  stored_selection_revalidation [1, 2] [4] (some "1") none (some "8") 2 7 5
    (by decide) (by decide) (by decide)

theorem data_mk (l : List Char) : (String.mk l).data = l :=
  rfl

theorem head?_dropWhile_false (p : Char → Bool) (l : List Char) :
    ∀ c, (l.dropWhile p).head? = some c → p c = false := by
  induction l with
  | nil =>
    intro c h
    simp [List.dropWhile] at h
  | cons a l ih =>
    intro c h
    rw [List.dropWhile_cons] at h
    by_cases hp : p a = true
    · rw [if_pos hp] at h
      exact ih c h
    · rw [if_neg hp] at h
      rw [List.head?_cons, Option.some.injEq] at h
      subst h
      exact Bool.not_eq_true _ ▸ hp

/-- C5: for a code file made of three header lines and a newline-normalized
body, the displayed code is exactly the body (the file content from the fourth
line onward; the first three lines are skipped), the subtitle is line two
stripped with `lstrip("# ")`, and any file with fewer than four lines displays
an empty code body. -/
theorem lesson_code_skip_three (l₁ l₂ l₃ rest : List Char) (c₂ : String)
    (hf₁ : noBreaks l₁ = true) (hf₂ : noBreaks l₂ = true) (hf₃ : noBreaks l₃ = true)
    (hn : nlNormalized rest = true) (hshort : (linesL c₂).length < 4) :
    code_to_display (String.mk (l₁ ++ '\n' :: (l₂ ++ '\n' :: (l₃ ++ '\n' :: rest)))) =
      String.mk rest ∧
    subtitle (String.mk (l₁ ++ '\n' :: (l₂ ++ '\n' :: (l₃ ++ '\n' :: rest)))) =
      String.mk (lstripHashSpace l₂) ∧
    code_to_display c₂ = "" := by
  have hlines : linesL (String.mk (l₁ ++ '\n' :: (l₂ ++ '\n' :: (l₃ ++ '\n' :: rest))))
      = l₁ :: l₂ :: l₃ :: splitlinesGo rest [] false := by
    unfold linesL
    rw [data_mk]
    rw [splitlinesGo_line l₁ hf₁, splitlinesGo_line l₂ hf₂, splitlinesGo_line l₃ hf₃]
    simp
  refine ⟨?_, ?_, ?_⟩
  · unfold code_to_display
    rw [hlines]
    simp only [List.drop_succ_cons, List.drop_zero]
    rw [joinNL_splitlinesGo rest hn []]
    simp
  · unfold subtitle
    rw [hlines]
    have hlen : 1 < (l₁ :: l₂ :: l₃ :: splitlinesGo rest [] false).length := by
      simp only [List.length_cons]
      omega
    rw [if_pos hlen]
    have hget : (l₁ :: l₂ :: l₃ :: splitlinesGo rest [] false).getD 1 [] = l₂ := rfl
    rw [hget]
  · unfold code_to_display
    have hdrop : (linesL c₂).drop 3 = [] := List.drop_eq_nil_of_le (by omega)
    rw [hdrop]
    rfl

/-- C5 witness: a five-line file and a two-line file. -/
theorem lesson_code_skip_three_witness :
    code_to_display (String.mk ("# day5".data ++ '\n' ::
        ("# Subtitle".data ++ '\n' :: ("".data ++ '\n' :: "x = 1\ny = 2".data)))) =
      String.mk "x = 1\ny = 2".data ∧
    subtitle (String.mk ("# day5".data ++ '\n' ::
        ("# Subtitle".data ++ '\n' :: ("".data ++ '\n' :: "x = 1\ny = 2".data)))) =
      String.mk (lstripHashSpace "# Subtitle".data) ∧
    code_to_display "a\nb" = "" :=
  lesson_code_skip_three "# day5".data "# Subtitle".data "".data "x = 1\ny = 2".data
    "a\nb" (by decide) (by decide) (by decide) (by decide) (by decide)

/-- C10: the subtitle is line two with every leading `'#'` and `' '` removed
(not just one comment marker), so it never begins with `'#'` or `' '`; a file
with fewer than two lines has an empty subtitle. -/
theorem subtitle_strips_all_marks (c₀ c₁ c₂ : String)
    (h₁ : 2 ≤ (linesL c₁).length) (h₂ : (linesL c₂).length < 2) :
    subtitle c₁ =
      String.mk (((linesL c₁).getD 1 []).dropWhile (fun c => c == '#' || c == ' ')) ∧
    (subtitle c₀).data.head? ≠ some '#' ∧
    (subtitle c₀).data.head? ≠ some ' ' ∧
    subtitle c₂ = "" := by
  refine ⟨?_, ?_, ?_, ?_⟩
  · unfold subtitle
    rw [if_pos (show 1 < (linesL c₁).length by omega)]
    rfl
  · unfold subtitle
    by_cases h : 1 < (linesL c₀).length
    · rw [if_pos h, data_mk]
      unfold lstripHashSpace
      cases hh : (((linesL c₀).getD 1 []).dropWhile (fun c => c == '#' || c == ' ')).head? with
      | none => simp
      | some c =>
        have hc := head?_dropWhile_false (fun c => c == '#' || c == ' ') _ c hh
        rw [Bool.or_eq_false_iff] at hc
        intro he
        rw [Option.some.injEq] at he
        subst he
        simp at hc
    · rw [if_neg h]
      simp
  · unfold subtitle
    by_cases h : 1 < (linesL c₀).length
    · rw [if_pos h, data_mk]
      unfold lstripHashSpace
      cases hh : (((linesL c₀).getD 1 []).dropWhile (fun c => c == '#' || c == ' ')).head? with
      | none => simp
      | some c =>
        have hc := head?_dropWhile_false (fun c => c == '#' || c == ' ') _ c hh
        rw [Bool.or_eq_false_iff] at hc
        intro he
        rw [Option.some.injEq] at he
        subst he
        simp at hc
    · rw [if_neg h]
      simp
  · unfold subtitle
    rw [if_neg (by omega)]

/-- C10 witness: a two-line file with a doubly marked second line and a
one-line file. -/
theorem subtitle_strips_all_marks_witness :
    subtitle "t\n## sub" =
      String.mk (((linesL "t\n## sub").getD 1 []).dropWhile
        (fun c => c == '#' || c == ' ')) ∧
    (subtitle "t\n## sub").data.head? ≠ some '#' ∧
    (subtitle "t\n## sub").data.head? ≠ some ' ' ∧
    subtitle "one" = "" :=
  subtitle_strips_all_marks "t\n## sub" "t\n## sub" "one" (by decide) (by decide)

/-- C3 (counterexample): the file `"x--- "` contains exactly one occurrence of
the `"---"` delimiter, yet the details section is empty (only whitespace
follows the delimiter); and for the delimiter-free file `" y "` the intro is
the stripped content `"y"`, not the entire file content. -/
theorem explanation_split_counterexample :
    countSub sepHR "x--- ".data = 1 ∧ expanderContent "x--- " = "" ∧
    countSub sepHR " y ".data = 0 ∧ introContent " y " = "y" ∧ ("y" : String) ≠ " y " := by
  decide

/-- C3 (amended): splitting a file containing the delimiter yields as intro
the text before the first occurrence, stripped, and as details the text after
it, stripped — empty exactly when only whitespace follows the delimiter; a
file with no delimiter yields empty details and the entire content, stripped,
as intro. -/
theorem explanation_split (m₁ m₂ : String) (pre post : List Char)
    (h₀ : splitFirst sepHR m₁.data = some (pre, post))
    (h₂ : countSub sepHR m₂.data = 0) :
    introContent m₁ = String.mk (pyStripL pre) ∧
    expanderContent m₁ = String.mk (pyStripL post) ∧
    (expanderContent m₁ = "" ↔ post.all isPySpace = true) ∧
    expanderContent m₂ = "" ∧
    introContent m₂ = String.mk (pyStripL m₂.data) := by
  have hnone : splitFirst sepHR m₂.data = none :=
    (splitFirst_eq_none_iff sepHR (by decide) m₂.data).mpr h₂
  refine ⟨?_, ?_, ?_, ?_, ?_⟩
  · unfold introContent
    rw [h₀]
  · unfold expanderContent
    rw [h₀]
  · unfold expanderContent
    rw [h₀]
    exact mk_pyStripL_eq_empty_iff post
  · unfold expanderContent
    rw [hnone]
  · unfold introContent
    rw [hnone]

/-- C3 witness at `"a---b"` (delimiter present) and `"ab"` (absent). -/
theorem explanation_split_witness :
    introContent "a---b" = String.mk (pyStripL ['a']) ∧
    expanderContent "a---b" = String.mk (pyStripL ['b']) ∧
    (expanderContent "a---b" = "" ↔ (['b'] : List Char).all isPySpace = true) ∧
    expanderContent "ab" = "" ∧
    introContent "ab" = String.mk (pyStripL "ab".data) :=
  explanation_split "a---b" "ab" ['a'] ['b'] (by decide) (by decide)

/-- Line 154 of the source: `py_file_path` is `app/day<n>.py` for the selected
day number `n`. -/
def pyFilePath (n : Nat) : String :=
  "app/day" ++ toString n ++ ".py"

/-- Line 163 of the source: the matching markdown path under `md/`. -/
def mdFilePath (n : Nat) : String :=
  "md/day" ++ toString n ++ ".md"

/-- Line 194 of the source: the `st.error` text of the `FileNotFoundError`
handler. -/
def missingMsg (n : Nat) : String :=
  "Error: Could not find file: " ++ pyFilePath n

/-- Line 16 of the source. -/
def format_day (n : Nat) : String :=
  "Day " ++ toString n

/-- Outcome of the content-display block: either a rendered page or the
`st.error` branch of the `FileNotFoundError` handler (no crash in either
case). -/
inductive RenderOutcome where
  | page (display sub code intro details : String)
  | fileNotFound (msg : String)
  deriving DecidableEq

/-- Lines 147-194 of the source for a selected day `n`: read the code file
(its absence raises `FileNotFoundError`, caught as an error message), read the
optional markdown file, and assemble the page.  `fs` maps a path to the
content of the file at that path, `none` when no such file exists. -/
def renderDay (fs : String → Option String) (n : Nat) : RenderOutcome :=
  match fs (pyFilePath n) with
  | none => RenderOutcome.fileNotFound (missingMsg n)
  | some text =>
    match fs (mdFilePath n) with
    | some m =>
      RenderOutcome.page (format_day n) (subtitle text) (code_to_display text)
        (introContent m) (expanderContent m)
    | none =>
      RenderOutcome.page (format_day n) (subtitle text) (code_to_display text) "" ""

theorem isSuffixOf_append_left (l m : List Char) :
    List.isSuffixOf l (m ++ l) = true := by
  simp [List.isSuffixOf, List.reverse_append]

/-- C9: when the code file of the selected day does not exist, the loader yields
the error outcome (the exception is caught, not propagated) and its message
names the missing path, which occurs verbatim at the end of the message. -/
theorem missing_code_file_error (fs : String → Option String) (n : Nat)
    (h : fs (pyFilePath n) = none) :
    renderDay fs n = RenderOutcome.fileNotFound (missingMsg n) ∧
    List.isSuffixOf (pyFilePath n).data (missingMsg n).data = true := by
  constructor
  · unfold renderDay
    rw [h]
  · have hdata : (missingMsg n).data =
        ("Error: Could not find file: " : String).data ++ (pyFilePath n).data := rfl
    rw [hdata]
    exact isSuffixOf_append_left _ _

/-- C9 witness on an empty file system at day 4. -/
theorem missing_code_file_error_witness :
    renderDay (fun _ => none) 4 = RenderOutcome.fileNotFound (missingMsg 4) ∧
    List.isSuffixOf (pyFilePath 4).data (missingMsg 4).data = true :=
  missing_code_file_error (fun _ => none) 4 rfl

theorem charListLe_total : ∀ x y : List Char,
    charListLe x y = true ∨ charListLe y x = true := by
  intro x
  induction x with
  | nil => intro y; exact Or.inl rfl
  | cons a as ih =>
    intro y
    cases y with
    | nil => exact Or.inr rfl
    | cons b bs =>
      by_cases h1 : a.toNat < b.toNat
      · left
        simp [charListLe, h1]
      · by_cases h2 : b.toNat < a.toNat
        · right
          simp [charListLe, h2]
        · rcases ih bs with h | h
          · left
            simp [charListLe, h1, h2, h]
          · right
            simp [charListLe, h1, h2, h]

theorem charListLe_trans : ∀ x y z : List Char,
    charListLe x y = true → charListLe y z = true → charListLe x z = true := by
  intro x
  induction x with
  | nil => intro y z _ _; rfl
  | cons a as ih =>
    intro y z hxy hyz
    cases y with
    | nil => simp [charListLe] at hxy
    | cons b bs =>
      cases z with
      | nil => simp [charListLe] at hyz
      | cons c cs =>
        by_cases hab : a.toNat < b.toNat <;> by_cases hba : b.toNat < a.toNat
        · omega
        · by_cases hbc : b.toNat < c.toNat
          · have hac : a.toNat < c.toNat := Nat.lt_trans hab hbc
            simp [charListLe, hac]
          · by_cases hcb : c.toNat < b.toNat
            · simp [charListLe, hbc, hcb] at hyz
            · have hac : a.toNat < c.toNat := by omega
              simp [charListLe, hac]
        · simp [charListLe, hab, hba] at hxy
        · by_cases hbc : b.toNat < c.toNat
          · have hac : a.toNat < c.toNat := by omega
            simp [charListLe, hac]
          · by_cases hcb : c.toNat < b.toNat
            · simp [charListLe, hbc, hcb] at hyz
            · have h1 : charListLe as bs = true := by
                simpa [charListLe, hab, hba] using hxy
              have h2 : charListLe bs cs = true := by
                simpa [charListLe, hbc, hcb] using hyz
              have hac : ¬ a.toNat < c.toNat := by omega
              have hca : ¬ c.toNat < a.toNat := by omega
              simpa [charListLe, hac, hca] using ih bs cs h1 h2

instance : IsTotal (Nat × String) pairLe :=
  ⟨by
    intro a b
    rcases Nat.lt_trichotomy a.1 b.1 with h | h | h
    · exact Or.inl (Or.inl h)
    · rcases charListLe_total a.2.data b.2.data with hc | hc
      · exact Or.inl (Or.inr ⟨h, hc⟩)
      · exact Or.inr (Or.inr ⟨h.symm, hc⟩)
    · exact Or.inr (Or.inl h)⟩

instance : IsTrans (Nat × String) pairLe :=
  ⟨by
    intro a b c hab hbc
    rcases hab with h1 | ⟨h1, hc1⟩ <;> rcases hbc with h2 | ⟨h2, hc2⟩
    · exact Or.inl (Nat.lt_trans h1 h2)
    · exact Or.inl (h2 ▸ h1)
    · exact Or.inl (h1 ▸ h2)
    · exact Or.inr ⟨h1.trans h2, charListLe_trans _ _ _ hc1 hc2⟩⟩

/-- Projecting the `(number, path)` pairs to their numbers gives exactly the
integers extracted from the glob-filtered names. -/
theorem dayMatches_map_fst (names : List String) :
    (dayMatches names).map Prod.fst = (names.filter globMatch).filterMap extractDay := by
  unfold dayMatches
  rw [List.map_filterMap]
  have h1 : ∀ nm, ((extractDay nm).map (fun v => (v, nm))).map Prod.fst = extractDay nm := by
    intro nm
    cases extractDay nm <;> rfl
  simp only [h1]

/-- The catalog is a permutation of the extracted integers. -/
theorem day_options_perm (names : List String) :
    (day_options names).Perm ((names.filter globMatch).filterMap extractDay) := by
  unfold day_options
  rw [← dayMatches_map_fst]
  exact (List.perm_insertionSort pairLe _).map Prod.fst

/-- The catalog is ascending. -/
theorem day_options_sorted (names : List String) :
    List.Sorted (· ≤ ·) (day_options names) := by
  unfold day_options
  refine List.Pairwise.map Prod.fst ?_ (List.sorted_insertionSort pairLe (dayMatches names))
  intro a b hab
  rcases hab with h | ⟨h, _⟩
  · exact Nat.le_of_lt h
  · exact Nat.le_of_eq h

/-- C2 (counterexample): the entry `"dayxday2.py"` does not match the full
pattern `day<digits>.py` (so the spec's catalog is empty), yet `glob` accepts
it and `re.search` finds `day2.py` inside it, so the code's catalog is `[2]`. -/
theorem catalog_full_pattern_counterexample :
    day_options ["dayxday2.py"] = [2] ∧
    catalogSpecPattern ["dayxday2.py"] = [] ∧
    day_options ["dayxday2.py"] ≠ catalogSpecPattern ["dayxday2.py"] := by
  decide

/-- C2 (amended): the catalog is exactly the ascending sort of the integers
extracted — by unanchored leftmost search for `day<digits>.py` — from the
filenames that start with `day` and end with `.py`; all other filenames
contribute nothing.  In particular it is sorted and a permutation of the
extracted integers. -/
theorem catalog_sorted_extraction (names : List String) :
    day_options names = sortNat ((names.filter globMatch).filterMap extractDay) ∧
    List.Sorted (· ≤ ·) (day_options names) ∧
    (day_options names).Perm ((names.filter globMatch).filterMap extractDay) := by
  refine ⟨?_, day_options_sorted names, day_options_perm names⟩
  refine List.eq_of_perm_of_sorted ?_ (day_options_sorted names) ?_
  · exact (day_options_perm names).trans (List.perm_insertionSort _ _).symm
  · exact List.sorted_insertionSort _ _

/-- C6 (counterexample): the two distinct filenames `"day07.py"` and
`"day7.py"` both extract the integer 7, so the catalog `[7, 7]` contains a
duplicate DayIndex despite the filenames being distinct. -/
theorem catalog_duplicates_counterexample :
    (["day07.py", "day7.py"] : List String).Nodup ∧
    day_options ["day07.py", "day7.py"] = [7, 7] ∧
    ¬ (day_options ["day07.py", "day7.py"]).Nodup := by
  decide

/-- C6 (amended): the catalog contains no duplicate DayIndex values provided
the integers extracted from the (distinct) matching filenames are distinct;
distinct filenames alone do not suffice, since distinct names such as
`day07.py` and `day7.py` extract equal integers. -/
theorem catalog_nodup (names : List String)
    (h : ((names.filter globMatch).filterMap extractDay).Nodup) :
    (day_options names).Nodup :=
  ((day_options_perm names).nodup_iff).mpr h

/-- C6 witness at `["day1.py", "day2.py"]`. -/
theorem catalog_nodup_witness :
    ((((["day1.py", "day2.py"] : List String).filter globMatch).filterMap
      extractDay).Nodup) ∧
    (day_options ["day1.py", "day2.py"]).Nodup :=
  ⟨by decide, catalog_nodup ["day1.py", "day2.py"] (by decide)⟩

end ThirtyDays
